import Mathlib

/-!
Verification of the wallet utility core of btc-wallet-client.

This file gives a shallow embedding of `src/lib/common/utils.js` and proves
the documented properties of its operations.  The external cryptographic
collaborator (the `@owstack/btc-lib` library together with `sjcl`) is kept
abstract: it is a record of function parameters, since the specification
places the hash/ECDSA/HD-derivation/address-encoding primitives outside the
core.  The precondition helpers of the source (`$.checkArgument`,
`$.checkState`) raise errors, which the embedding models with an explicit
error type and `Except`.
-/

/-- Error taxonomy of the source's precondition helpers: `$.checkArgument`
raises an argument error, `$.checkState` a state error.  `library` stands for
an exception raised inside the external collaborator library (for example a
constructor rejecting a malformed key). -/
inductive Err where
  | argument
  | state
  | library
deriving DecidableEq

instance {ε α : Type} [DecidableEq ε] [DecidableEq α] : DecidableEq (Except ε α) := fun x y =>
  match x, y with
  | .error a, .error b =>
    if h : a = b then isTrue (congrArg Except.error h)
    else isFalse (fun hc => h (Except.error.inj hc))
  | .ok a, .ok b =>
    if h : a = b then isTrue (congrArg Except.ok h)
    else isFalse (fun hc => h (Except.ok.inj hc))
  | .error _, .ok _ => isFalse (fun hc => Except.noConfusion hc)
  | .ok _, .error _ => isFalse (fun hc => Except.noConfusion hc)

/-- Abstraction of the external collaborator (`@owstack/btc-lib` and `sjcl`):
double SHA-256 hashing, key/signature parsing, ECDSA sign/verify, HD child
derivation, address construction, and the symmetric cipher.  Keys, signatures
and addresses are kept in their serialized string form, digests as byte
lists, since the embedded code only passes them around.  Parsers and
constructors that can throw on malformed input return `Option`. -/
structure BtcLib where
  sha256sha256 : String → List Nat
  privFromString : String → Option String
  pubFromString : String → Option String
  sigFromString : String → Option String
  ecdsaSign : List Nat → String → String
  ecdsaVerify : List Nat → String → String → Bool
  xpubDeriveChild : String → String → Option String
  createMultisig : List String → Nat → String → Option String
  fromPublicKey : String → String → String
  base64ToBits : String → Option (List Nat)
  sjclDecrypt : List Nat → String → Option String

namespace Utils

/-- `Utils.decryptMessage`: decode the base64 key and decrypt; any exception
inside the try block makes the function return the ciphertext argument
unchanged. -/
def decryptMessage (L : BtcLib) (cyphertextJson : String) (encryptingKey : String) : String :=
  match L.base64ToBits encryptingKey with
  | none => cyphertextJson
  | some key =>
    match L.sjclDecrypt key cyphertextJson with
    | none => cyphertextJson
    | some plain => plain

/-- `Utils.hashMessage`: requires truthy (non-empty) text; double SHA-256 of
the text bytes, digest read back in reverse byte order (`readReverse`). -/
def hashMessage (L : BtcLib) (text : String) : Except Err (List Nat) :=
  if text.isEmpty then .error .argument
  else .ok (L.sha256sha256 text).reverse

/-- `Utils.signMessage`: requires truthy text; parses the private key
(`new PrivateKey` throws on malformed input), hashes the text via
`hashMessage` and ECDSA-signs the digest, returning the signature string. -/
def signMessage (L : BtcLib) (text : String) (privKey : String) : Except Err String :=
  if text.isEmpty then .error .argument
  else
    match L.privFromString privKey with
    | none => .error .library
    | some priv =>
      match hashMessage L text with
      | .error e => .error e
      | .ok hash => .ok (L.ecdsaSign hash priv)

/-- `Utils.verifyMessage`: requires truthy text and a truthy public key;
returns `false` for an absent (falsy) signature; parses the public key
(`new PublicKey` throws on malformed input); inside the try block parses the
signature and verifies it, returning `false` on a parse failure. -/
def verifyMessage (L : BtcLib) (text : String) (signature : String) (pubKey : String) :
    Except Err Bool :=
  if text.isEmpty then .error .argument
  else if pubKey.isEmpty then .error .argument
  else if signature.isEmpty then .ok false
  else
    match L.pubFromString pubKey with
    | none => .error .library
    | some pub =>
      match hashMessage L text with
      | .error e => .error e
      | .ok hash =>
        match L.sigFromString signature with
        | none => .ok false
        | some sig => .ok (L.ecdsaVerify hash sig pub)

/-- Key ordering used by the canonical proposal serialization. -/
def keyLe (a b : String × String) : Prop := a.1 ≤ b.1

instance : DecidableRel keyLe := fun a b => inferInstanceAs (Decidable (a.1 ≤ b.1))

instance : IsTotal (String × String) keyLe := ⟨fun a b => le_total a.1 b.1⟩

instance : IsTrans (String × String) keyLe := ⟨fun _ _ _ h h' => le_trans h h'⟩

/-- Strict key ordering, used to show the sorted serialization is unique. -/
def keyLt (a b : String × String) : Prop := a.1 < b.1

instance : IsAntisymm (String × String) keyLt :=
  ⟨fun _ _ h h' => absurd (lt_trans h h') (lt_irrefl _)⟩

/-- Models the `json-stable-stringify` collaborator on a flat JSON object
(an association list of keys to already-serialized atomic values): the
object is serialized with its keys in sorted order, so the output is
independent of the insertion order of the keys. -/
def stableStringify (h : List (String × String)) : String :=
  "\x7b" ++
    String.intercalate ","
      ((List.insertionSort keyLe h).map
        (fun kv => "\"" ++ kv.1 ++ "\":\"" ++ kv.2 ++ "\"")) ++
  "\x7d"

/-- The two call shapes of `Utils.getProposalHash`, which the source selects
by inspecting `arguments.length`: a single proposal-header object, or the
four positional legacy fields (with `message` and `payProUrl` optional). -/
inductive ProposalArgs where
  | header (h : List (String × String))
  | legacy (toAddress : String) (amount : Int) (message : Option String)
      (payProUrl : Option String)

/-- `Utils.getProposalHash`: with more than one argument, the legacy
pipe-joined string (`message`/`payProUrl` falling back to the empty string);
with a single header object, its canonical stable JSON serialization. -/
def getProposalHash (args : ProposalArgs) : String :=
  match args with
  | .legacy toAddress amount message payProUrl =>
    String.intercalate "|" [toAddress, toString amount, message.getD "", payProUrl.getD ""]
  | .header h => stableStringify h

/-- One entry of a public key ring (only the extended public key is read by
`deriveAddress`). -/
structure PublicKeyRingEntry where
  xPubKey : String
deriving DecidableEq

/-- Result record of `Utils.deriveAddress`. -/
structure DerivedAddress where
  address : String
  path : String
  publicKeys : List String
deriving DecidableEq

/-- Modelled from the spec: `Constants.SCRIPT_TYPES` lives in
`lib/common/constants.js`, which is not under `src/`.  The spec's two address
schemes are MultiSig (pay-to-script-hash, `P2SH`) and SingleKey
(pay-to-public-key-hash, `P2PKH`). -/
def SCRIPT_TYPES : List String := ["P2SH", "P2PKH"]

/-- The `_.map` over the ring in `deriveAddress`: derive the child public key
at `path` from each entry's extended public key; the first entry whose
`HDPublicKey` constructor or derivation throws aborts the whole map. -/
def derivePubKeys (L : BtcLib) (path : String) :
    List PublicKeyRingEntry → Option (List String)
  | [] => some []
  | e :: rest =>
    match L.xpubDeriveChild e.xPubKey path with
    | none => none
    | some k =>
      match derivePubKeys L path rest with
      | none => none
      | some ks => some (k :: ks)

/-- `Utils.deriveAddress`: requires a recognized script type (argument
error), derives the child public keys of all ring entries, then constructs a
multisig address (`P2SH`) or, after checking the state that there is exactly
one derived key, a single-key address (`P2PKH`). -/
def deriveAddress (L : BtcLib) (scriptType : String) (publicKeyRing : List PublicKeyRingEntry)
    (path : String) (m : Nat) (network : String) : Except Err DerivedAddress :=
  if ¬ SCRIPT_TYPES.contains scriptType then .error .argument
  else
    match derivePubKeys L path publicKeyRing with
    | none => .error .library
    | some publicKeys =>
      if scriptType = "P2SH" then
        match L.createMultisig publicKeys m network with
        | none => .error .library
        | some a => .ok ⟨a, path, publicKeys⟩
      else
        if publicKeys.length = 1 then
          .ok ⟨L.fromPublicKey (publicKeys.getD 0 "") network, path, publicKeys⟩
        else .error .state

/-- Decimal precision profile of a display unit. -/
structure UnitPrecision where
  maxDecimals : Nat
  minDecimals : Nat
deriving DecidableEq

/-- Configuration of a display unit: the unit holds `10 ^ toSatoshisExp`
minimal units, with a short and a full precision profile. -/
structure UnitDef where
  toSatoshisExp : Nat
  short : UnitPrecision
  full : UnitPrecision
deriving DecidableEq

/-- Modelled from the spec: `Constants.UNITS` lives in
`lib/common/constants.js`, which is not under `src/`.  The spec fixes the
profile used by `formatAmount` with default options: unit `BTC` of size
`1e8` minimal units, `minDecimals = 2`, `maxDecimals = 8`; the full-precision
profile shows all 8 decimals. -/
def UNITS : List (String × UnitDef) := [("BTC", ⟨8, ⟨8, 2⟩, ⟨8, 8⟩⟩)]

/-- Display options of `Utils.formatAmount`; separators are modelled as
single characters (a falsy, i.e. absent, separator falls back to the
default via `||`). -/
structure FormatOpts where
  fullPrecision : Bool := false
  thousandsSeparator : Option Char := none
  decimalSeparator : Option Char := none
deriving DecidableEq

/-- JS `x || dflt` for an optional separator: an absent separator selects
the default. -/
def sepOr (o : Option Char) (dflt : Char) : Char :=
  o.getD dflt

/-- Digits of a decimal string read back as a number (used to model
`parseFloat` on the well-formed strings the pipeline builds). -/
def digitsToNat (l : List Char) : Nat :=
  l.foldl (fun a c => a * 10 + (c.toNat - 48)) 0

/-- The character of a decimal digit. -/
def digitChar (d : Nat) : Char :=
  match d with
  | 0 => '0' | 1 => '1' | 2 => '2' | 3 => '3' | 4 => '4'
  | 5 => '5' | 6 => '6' | 7 => '7' | 8 => '8' | _ => '9'

/-- Decimal digit list of a natural number; the first argument is recursion
fuel (any value with `n < 10 ^ fuel` produces the digits of `n`). -/
def natDigits : Nat → Nat → List Char
  | 0, _ => []
  | fuel + 1, n =>
    if n < 10 then [digitChar n]
    else natDigits fuel (n / 10) ++ [digitChar (n % 10)]

/-- Decimal rendering of a natural number (the model of the JS
number-to-string conversion for nonnegative integers). -/
def natToString (n : Nat) : String := String.mk (natDigits (n + 1) n)

/-- JS `String.prototype.split` with a single-character separator. -/
def splitOnChar (sep : Char) : List Char → List (List Char)
  | [] => [[]]
  | c :: rest =>
    if c == sep then [] :: splitOnChar sep rest
    else
      match splitOnChar sep rest with
      | [] => [[c]]
      | g :: gs => (c :: g) :: gs

/-- JS `String.prototype.replace` with a plain pattern replaces only the
first occurrence: swap the first dot for the decimal separator. -/
def replaceFirstDot (decimal : Char) : List Char → List Char
  | [] => []
  | c :: rest => if c == '.' then decimal :: rest else c :: replaceFirstDot decimal rest

def padLeftZeros (s : String) (k : Nat) : String :=
  String.mk (List.replicate (k - s.length) '0') ++ s

def stripTrailingZeros (s : String) : String :=
  String.mk ((s.toList.reverse.dropWhile (fun c => c == '0')).reverse)

/-- Models the JS expression `(satoshis / u.toSatoshis).toString()` under
exact decimal semantics: the exact decimal expansion of
`satoshis / 10 ^ k` with trailing fractional zeros removed (JS prints the
shortest round-tripping decimal, which is this exact expansion for the
magnitudes a wallet amount takes; in the tiny-magnitude range where JS
switches to exponent notation, the downstream clip/`toFixed` pipeline
produces the same final string for the modelled unit profile). -/
def jsNumberToString (satoshis : Int) (k : Nat) : String :=
  let n := satoshis.natAbs
  let ip := n / 10 ^ k
  let fp := n % 10 ^ k
  let frac := stripTrailingZeros (padLeftZeros (natToString fp) k)
  (if satoshis < 0 then "-" else "") ++ natToString ip ++
    (if frac.isEmpty then "" else "." ++ frac)

/-- The source's `clipDecimals(number, decimals)` composed with the
`.toFixed(decimals)` call applied to its result: split the decimal string at
the dot, keep the first `decimals` fractional digits (`substring`, i.e.
truncation, with `x[1] || '0'` as fallback), reassemble (`parseFloat`) and
render with exactly `decimals` fractional digits (`toFixed`; a value whose
kept digits are all zero loses a negative sign, as JS renders negative zero
as `0`). -/
def clippedToFixed (s : String) (decimals : Nat) : String :=
  let x := splitOnChar '.' s.toList
  let x1 := x.getD 1 []
  let d := (if x1.isEmpty then ['0'] else x1).take decimals
  let x0 := x.getD 0 []
  let neg := x0.headD ' ' == '-'
  let ipN := digitsToNat (if neg then x0.drop 1 else x0)
  let scaled := ipN * 10 ^ decimals + digitsToNat d * 10 ^ (decimals - d.length)
  let sign := if neg && scaled != 0 then "-" else ""
  if decimals = 0 then sign ++ natToString ipN
  else
    sign ++ natToString (scaled / 10 ^ decimals) ++ "." ++
      padLeftZeros (natToString (scaled % 10 ^ decimals)) decimals

/-- The `_.dropRightWhile` call of `addSeparators`: drop fractional digits
from the right while the digit is `'0'` and its index is at least
`minDecimals`. -/
def dropRightZerosIdx (minDecimals : Nat) (l : List Char) : List Char :=
  ((l.enum.reverse.dropWhile
      (fun p => p.2 == '0' && decide (p.1 ≥ minDecimals))).reverse).map Prod.snd

/-- Split a reversed digit list into groups of three (the digit groups of the
thousands-separator regex, built from the right). -/
def chunks3 : List Char → List (List Char)
  | [] => []
  | [a] => [[a]]
  | [a, b] => [[a, b]]
  | a :: b :: c :: rest => [a, b, c] :: chunks3 rest

/-- The thousands-separator regex replacement
`x0.replace(\B(?=(\d{3})+(?!\d)), thousands)` on an optionally signed digit
string: insert the separator before every group of three digits counted from
the right, never at the start of the digit run. -/
def insertThousands (x0 : List Char) (sep : Char) : String :=
  let neg := x0.headD ' ' == '-'
  let ds := if neg then x0.drop 1 else x0
  let groups := ((chunks3 ds.reverse).map (fun c => String.mk c.reverse)).reverse
  (if neg then "-" else "") ++ String.intercalate (String.mk [sep]) groups

/-- The source's `addSeparators(nStr, thousands, decimal, minDecimals)`:
swap the dot for the decimal separator, trim trailing fractional zeros down
to the `minDecimals` floor, and insert the thousands separator into the
integer part. -/
def addSeparators (nStr : String) (thousands decimal : Char) (minDecimals : Nat) : String :=
  let l := replaceFirstDot decimal nStr.toList
  let x := splitOnChar decimal l
  let x0 := x.getD 0 []
  let x1 := x.getD 1 []
  let x1c := String.mk (dropRightZerosIdx minDecimals x1)
  let x2 := if x.length > 1 then String.mk [decimal] ++ x1c else ""
  insertThousands x0 thousands ++ x2

/-- `Utils.formatAmount`: requires a recognized unit (argument error), picks
the short or full precision profile, clips the exact decimal value of the
amount to the profile's maximum decimals, and adds the separators with the
profile's minimum-decimals floor. -/
def formatAmount (satoshis : Int) (unit : String) (opts : FormatOpts) : Except Err String :=
  match List.lookup unit UNITS with
  | none => .error .argument
  | some u =>
    let p := if opts.fullPrecision then u.full else u.short
    let amount := clippedToFixed (jsNumberToString satoshis u.toSatoshisExp) p.maxDecimals
    .ok (addSeparators amount (sepOr opts.thousandsSeparator ',')
          (sepOr opts.decimalSeparator '.') p.minDecimals)

/-- One input of a transaction plan: its UTXO value and (for multisig) the
signer public keys attached alongside. -/
structure TxPlanInput where
  satoshis : Int
  publicKeys : List String
deriving DecidableEq

/-- One output of a transaction plan: either a raw script or a destination
address, plus the amount. -/
structure TxPlanOutput where
  script : Option String
  toAddress : Option String
  amount : Int
deriving DecidableEq

/-- A transaction plan (`txp`) as consumed by `Utils.buildTx`.  A missing
`outputOrder` behaves as the empty list (`_.reject(undefined, ...) = []`),
and `changeAddress` is the `.address` string of the plan's change-address
record. -/
structure TxPlan where
  addressType : String
  inputs : List TxPlanInput
  toAddress : Option String
  amount : Option Int
  outputs : Option (List TxPlanOutput)
  fee : Int
  changeAddress : String
  outputOrder : List Nat
deriving DecidableEq

/-- An output of the collaborator's transaction object: built with
`addOutput` from a raw script or with `to` from an address. -/
inductive TxOutput where
  | scriptOut (script : String) (satoshis : Int)
  | addrOut (toAddress : String) (satoshis : Int)
deriving DecidableEq

def TxOutput.satoshis : TxOutput → Int
  | .scriptOut _ s => s
  | .addrOut _ s => s

/-- The assembled transaction returned by `buildTx`, as far as the embedded
code observes it: the attached inputs, the fee, the change address and the
final output sequence. -/
structure Transaction where
  inputs : List TxPlanInput
  fee : Int
  changeAddress : String
  outputs : List TxOutput
deriving DecidableEq

/-- Behaviour of the collaborator transaction's `fee`/`change` accounting,
which `buildTx` explicitly does not trust: given the attached inputs, the
outputs added so far, the fee and the change address, the collaborator may
append a change output.  `buildTx` is proved for every such behaviour. -/
def ChangeFn : Type :=
  List TxPlanInput → List TxOutput → Int → String → Option TxOutput

/-- JS truthiness of an optional string field (absent or empty is falsy). -/
def jsTruthyStr : Option String → Bool
  | none => false
  | some s => !s.isEmpty

/-- JS truthiness of an optional numeric field (absent or zero is falsy). -/
def jsTruthyInt : Option Int → Bool
  | none => false
  | some n => n != 0

/-- One iteration of the `_.each(txp.outputs, ...)` loop in `buildTx`: the
state check that the output has a script or an address, then `addOutput`
with the raw script or `to` with the address. -/
def addPlanOutput (o : TxPlanOutput) : Except Err TxOutput :=
  if !(jsTruthyStr o.script) && !(jsTruthyStr o.toAddress) then .error .state
  else if jsTruthyStr o.script then .ok (.scriptOut (o.script.getD "") o.amount)
  else .ok (.addrOut (o.toAddress.getD "") o.amount)

/-- The output-adding section of `buildTx`: a single `(toAddress, amount)`
pair with no explicit output list adds one output, otherwise the explicit
output list is iterated. -/
def planOutputs (txp : TxPlan) : Except Err (List TxOutput) :=
  if jsTruthyStr txp.toAddress && jsTruthyInt txp.amount && txp.outputs.isNone then
    .ok [.addrOut (txp.toAddress.getD "") (txp.amount.getD 0)]
  else
    match txp.outputs with
    | some os => os.mapM addPlanOutput
    | none => .ok []

/-- The output-shuffling section of `buildTx`: with more than one output,
drop the out-of-range `outputOrder` indices (`_.reject`), check the state
that the filtered order has as many entries as there are outputs, and let
the collaborator's `sortOutputs` replace the outputs by the mapped
selection. -/
def shuffleOutputs (outputOrder : List Nat) (outs : List TxOutput) :
    Except Err (List TxOutput) :=
  if 1 < outs.length then
    if outs.length = (outputOrder.filter (fun o => decide (o < outs.length))).length then
      .ok ((outputOrder.filter (fun o => decide (o < outs.length))).map
            (fun i => outs.getD i (TxOutput.scriptOut "" 0)))
    else .error .state
  else .ok outs

/-- The transaction's outputs after the state check on the address type, the
output-adding section, and the collaborator's `fee`/`change` step (which may
append a change output), before the shuffling section. -/
def preShuffleOutputs (change : ChangeFn) (txp : TxPlan) : Except Err (List TxOutput) :=
  if ¬ SCRIPT_TYPES.contains txp.addressType then .error .state
  else
    match planOutputs txp with
    | .error e => .error e
    | .ok outs0 => .ok (outs0 ++ (change txp.inputs outs0 txp.fee txp.changeAddress).toList)

/-- The transaction's outputs after the shuffling section. -/
def assembledOutputs (change : ChangeFn) (txp : TxPlan) : Except Err (List TxOutput) :=
  match preShuffleOutputs change txp with
  | .error e => .error e
  | .ok outs1 => shuffleOutputs txp.outputOrder outs1

/-- The plan's total input value, re-derived by `buildTx` itself:
`_.reduce(txp.inputs, (memo, i) => +i.satoshis + memo, 0)`. -/
def totalInputSatoshis (txp : TxPlan) : Int :=
  txp.inputs.foldl (fun memo i => i.satoshis + memo) 0

/-- The assembled transaction's total output value, re-derived by `buildTx`
itself: `_.reduce(t.outputs, (memo, o) => +o.satoshis + memo, 0)`. -/
def totalOutputSatoshis (outs : List TxOutput) : Int :=
  outs.foldl (fun memo o => o.satoshis + memo) 0

/-- The two final state checks of `buildTx`:
`totalInputs - totalOutputs >= 0` and
`totalInputs - totalOutputs <= Defaults.MAX_TX_FEE`, then the assembled
transaction is returned.  `defaults.js` is not under `src/`, so the bound is
a parameter. -/
def balanceCheck (maxTxFee : Int) (txp : TxPlan) (outs : List TxOutput) :
    Except Err Transaction :=
  if totalInputSatoshis txp - totalOutputSatoshis outs < 0 then .error .state
  else if maxTxFee < totalInputSatoshis txp - totalOutputSatoshis outs then .error .state
  else .ok ⟨txp.inputs, txp.fee, txp.changeAddress, outs⟩

/-- `Utils.buildTx`: assemble the outputs (address-type state check, inputs
attached per script type, outputs added, collaborator `fee`/`change` step,
shuffling section), then run the independent balance validation and return
the assembled transaction. -/
def buildTx (maxTxFee : Int) (change : ChangeFn) (txp : TxPlan) : Except Err Transaction :=
  match assembledOutputs change txp with
  | .error e => .error e
  | .ok outs => balanceCheck maxTxFee txp outs

end Utils

/-- A concrete collaborator instance used to exercise the theorems on
explicit inputs.  Hashing, parsing, signing and encryption are stand-ins
with the interface shape of the real library. -/
def testLib : BtcLib where
  sha256sha256 t := [t.length]
  privFromString s := if s.isEmpty then none else some s
  pubFromString s := if s.isEmpty then none else some s
  sigFromString s := if s == "bad" then none else some s
  ecdsaSign _ priv := "sig-" ++ priv
  ecdsaVerify _ sig pub := sig == "sig-" ++ pub
  xpubDeriveChild x p := some (x ++ "/" ++ p)
  createMultisig ks _ _ := some (String.intercalate "-" ks)
  fromPublicKey k n := k ++ "@" ++ n
  base64ToBits s := if s == "KEY" then some [1] else none
  sjclDecrypt _ c := if c == "CT" then some "PT" else none

/-- A collaborator change policy that never appends a change output. -/
def changeNone : Utils.ChangeFn := fun _ _ _ _ => none

/-- A concrete single-output plan: one 100-satoshi input, one 90-satoshi
output, so the re-derived difference is 10. -/
def txpA : Utils.TxPlan :=
  { addressType := "P2PKH", inputs := [⟨100, []⟩], toAddress := none, amount := none,
    outputs := some [⟨none, some "addr1", 90⟩], fee := 10, changeAddress := "chg",
    outputOrder := [] }

/-- A concrete three-output plan with `outputOrder = [2, 0, 1]`. -/
def txpC : Utils.TxPlan :=
  { addressType := "P2PKH", inputs := [⟨100, []⟩], toAddress := none, amount := none,
    outputs := some [⟨none, some "a", 10⟩, ⟨none, some "b", 20⟩, ⟨none, some "c", 30⟩],
    fee := 1, changeAddress := "chg", outputOrder := [2, 0, 1] }

/-- The same plan with the out-of-range order `[5, 0, 1]`: index 5 is
dropped and the remaining two indices fail the length check. -/
def txpD : Utils.TxPlan := { txpC with outputOrder := [5, 0, 1] }

theorem isEmpty_false_of_ne_empty {s : String} (h : s ≠ "") : s.isEmpty = false := by
  cases hb : s.isEmpty with
  | false => rfl
  | true => exact absurd ((String.isEmpty_iff s).mp hb) h

/-- C3 (counterexample): with empty text and an absent signature,
`verifyMessage` raises an argument error instead of returning `false`, so
the claim's universal quantification over all text fails at `text = ""`. -/
theorem verifyMessage_empty_text_raises :
    Utils.verifyMessage testLib "" "" "k" = .error Err.argument ∧
      Utils.verifyMessage testLib "" "" "k" ≠ .ok false :=
  ⟨rfl, by decide⟩

/-- C3 (amended): for non-empty text, a non-empty public key string that
parses as a public key, and a signature that is absent, malformed, or does
not verify, `verifyMessage` returns `false` without raising. -/
theorem verifyMessage_soft_failure (L : BtcLib) (text signature pubKey pub : String)
    (htext : text ≠ "") (hpubKey : pubKey ≠ "")
    (hparse : L.pubFromString pubKey = some pub)
    (hbad : signature = "" ∨ L.sigFromString signature = none ∨
      ∃ sig, L.sigFromString signature = some sig ∧
        L.ecdsaVerify ((L.sha256sha256 text).reverse) sig pub = false) :
    Utils.verifyMessage L text signature pubKey = .ok false := by
  have htext' : text.isEmpty = false := isEmpty_false_of_ne_empty htext
  have hpubKey' : pubKey.isEmpty = false := isEmpty_false_of_ne_empty hpubKey
  by_cases hs : signature.isEmpty
  · simp [Utils.verifyMessage, htext', hpubKey', hs]
  · have hs' : signature.isEmpty = false := by
      cases hb : signature.isEmpty with
      | false => rfl
      | true => exact absurd hb hs
    rcases hbad with hb | hb | ⟨sig, hsig, hver⟩
    · subst hb; exact absurd hs' (by decide)
    · simp [Utils.verifyMessage, Utils.hashMessage, htext', hpubKey', hs', hparse, hb]
    · simp [Utils.verifyMessage, Utils.hashMessage, htext', hpubKey', hs', hparse, hsig, hver]

theorem verifyMessage_soft_failure_witness :
    "m" ≠ "" ∧ "k" ≠ "" ∧ testLib.pubFromString "k" = some "k" ∧
      testLib.sigFromString "bad" = none ∧
      Utils.verifyMessage testLib "m" "bad" "k" = .ok false :=
  ⟨by decide, by decide, rfl, rfl,
    verifyMessage_soft_failure testLib "m" "bad" "k" "k" (by decide) (by decide) rfl
      (Or.inr (Or.inl rfl))⟩

/-- C4: `deriveAddress` is deterministic: two calls whose five arguments are
equal return equal `DerivedAddress` records (the embedding is a pure
function of exactly these arguments and the collaborator). -/
theorem deriveAddress_deterministic (L : BtcLib)
    (scriptTypeA scriptTypeB : String) (ringA ringB : List Utils.PublicKeyRingEntry)
    (pathA pathB : String) (mA mB : Nat) (networkA networkB : String)
    (hs : scriptTypeA = scriptTypeB) (hr : ringA = ringB) (hp : pathA = pathB)
    (hm : mA = mB) (hn : networkA = networkB) :
    Utils.deriveAddress L scriptTypeA ringA pathA mA networkA =
      Utils.deriveAddress L scriptTypeB ringB pathB mB networkB := by
  subst hs hr hp hm hn; rfl

theorem deriveAddress_deterministic_witness :
    Utils.deriveAddress testLib "P2PKH" [⟨"x"⟩] "m/0" 1 "live" =
      Utils.deriveAddress testLib "P2PKH" [⟨"x"⟩] "m/0" 1 "live" :=
  deriveAddress_deterministic testLib "P2PKH" "P2PKH" [⟨"x"⟩] [⟨"x"⟩] "m/0" "m/0" 1 1
    "live" "live" rfl rfl rfl rfl rfl

/-- C5: for non-empty text and a valid corresponding key pair (the
collaborator parses both keys, produces a parseable non-empty signature
string, and its verify accepts that signature for that public key),
`signMessage` then `verifyMessage` round-trips to `true`. -/
theorem signMessage_verifyMessage_roundtrip (L : BtcLib)
    (text priv pubKey pk pub sig : String)
    (htext : text ≠ "") (hpubKey : pubKey ≠ "")
    (hpriv : L.privFromString priv = some pk)
    (hpub : L.pubFromString pubKey = some pub)
    (hnonempty : L.ecdsaSign ((L.sha256sha256 text).reverse) pk ≠ "")
    (hsig : L.sigFromString (L.ecdsaSign ((L.sha256sha256 text).reverse) pk) = some sig)
    (hver : L.ecdsaVerify ((L.sha256sha256 text).reverse) sig pub = true) :
    ∃ s, Utils.signMessage L text priv = .ok s ∧
      Utils.verifyMessage L text s pubKey = .ok true := by
  have htext' : text.isEmpty = false := isEmpty_false_of_ne_empty htext
  have hpubKey' : pubKey.isEmpty = false := isEmpty_false_of_ne_empty hpubKey
  have hsE : (L.ecdsaSign ((L.sha256sha256 text).reverse) pk).isEmpty = false :=
    isEmpty_false_of_ne_empty hnonempty
  refine ⟨L.ecdsaSign ((L.sha256sha256 text).reverse) pk, ?_, ?_⟩
  · simp [Utils.signMessage, Utils.hashMessage, htext', hpriv]
  · simp [Utils.verifyMessage, Utils.hashMessage, htext', hpubKey', hsE, hpub, hsig, hver]

theorem signMessage_verifyMessage_roundtrip_witness :
    ∃ s, Utils.signMessage testLib "m" "k" = .ok s ∧
      Utils.verifyMessage testLib "m" s "k" = .ok true :=
  signMessage_verifyMessage_roundtrip testLib "m" "k" "k" "k" "k" "sig-k"
    (by decide) (by decide) rfl rfl (by decide) (by decide) (by decide)

theorem derivePubKeys_length (L : BtcLib) (path : String) :
    ∀ ring ks, Utils.derivePubKeys L path ring = some ks → ks.length = ring.length := by
  intro ring
  induction ring with
  | nil =>
    intro ks h
    simp only [Utils.derivePubKeys, Option.some.injEq] at h
    simp [← h]
  | cons e rest ih =>
    intro ks h
    simp only [Utils.derivePubKeys] at h
    cases hx : L.xpubDeriveChild e.xPubKey path with
    | none => rw [hx] at h; simp at h
    | some k =>
      rw [hx] at h
      cases hr : Utils.derivePubKeys L path rest with
      | none => rw [hr] at h; simp at h
      | some ks' =>
        rw [hr] at h
        simp only [Option.some.injEq] at h
        simp [← h, ih ks' hr]

/-- C6: `deriveAddress` fails with a state error for the SingleKey (`P2PKH`)
scheme whenever the ring does not have exactly one entry (given the ring's
extended keys all derive), fails with an argument error for every
unrecognized scheme value, and a SingleKey success implies the ring has
exactly one entry. -/
theorem deriveAddress_scheme_errors (L : BtcLib) (ring : List Utils.PublicKeyRingEntry)
    (path : String) (m : Nat) (network : String) :
    (∀ ks, Utils.derivePubKeys L path ring = some ks → 1 < ring.length →
      Utils.deriveAddress L "P2PKH" ring path m network = .error .state) ∧
    (∀ scriptType, ¬ Utils.SCRIPT_TYPES.contains scriptType →
      Utils.deriveAddress L scriptType ring path m network = .error .argument) ∧
    (∀ r, Utils.deriveAddress L "P2PKH" ring path m network = .ok r → ring.length = 1) := by
  refine ⟨?_, ?_, ?_⟩
  · intro ks hks hlen
    have hkl := derivePubKeys_length L path ring ks hks
    have hne : ¬ ks.length = 1 := by omega
    simp only [Utils.deriveAddress, hks, hne]
    rw [if_neg (by decide)]
    simp [hne]
  · intro scriptType hst
    unfold Utils.deriveAddress
    rw [if_pos hst]
  · intro r h
    unfold Utils.deriveAddress at h
    rw [if_neg (by decide)] at h
    cases hks : Utils.derivePubKeys L path ring with
    | none => rw [hks] at h; simp at h
    | some ks =>
      rw [hks] at h
      dsimp only at h
      rw [if_neg (by decide)] at h
      by_cases hl : ks.length = 1
      · rw [← derivePubKeys_length L path ring ks hks]; exact hl
      · rw [if_neg hl] at h; cases h

theorem deriveAddress_scheme_errors_witness :
    Utils.deriveAddress testLib "P2PKH" [⟨"x1"⟩, ⟨"x2"⟩] "m/0" 1 "live" = .error .state ∧
    Utils.deriveAddress testLib "BOGUS" [⟨"x1"⟩, ⟨"x2"⟩] "m/0" 1 "live" = .error .argument ∧
    ([⟨"x1"⟩] : List Utils.PublicKeyRingEntry).length = 1 :=
  ⟨(deriveAddress_scheme_errors testLib [⟨"x1"⟩, ⟨"x2"⟩] "m/0" 1 "live").1
      ["x1/m/0", "x2/m/0"] rfl (by decide),
   (deriveAddress_scheme_errors testLib [⟨"x1"⟩, ⟨"x2"⟩] "m/0" 1 "live").2.1 "BOGUS"
      (by decide),
   (deriveAddress_scheme_errors testLib [⟨"x1"⟩] "m/0" 1 "live").2.2
      ⟨"x1/m/0@live", "m/0", ["x1/m/0"]⟩ rfl⟩

/-- C7: `decryptMessage` never raises (it is a total function): when key
decoding or decryption fails it returns the ciphertext argument unchanged —
in particular for every ciphertext and every key the cipher rejects — and
when decryption succeeds it returns the plaintext; every call lands in one
of these two cases. -/
theorem decryptMessage_never_throws (L : BtcLib) (cyphertextJson encryptingKey : String) :
    ((L.base64ToBits encryptingKey = none ∨
        (∃ key, L.base64ToBits encryptingKey = some key ∧
          L.sjclDecrypt key cyphertextJson = none)) →
      Utils.decryptMessage L cyphertextJson encryptingKey = cyphertextJson) ∧
    (∀ key plain, L.base64ToBits encryptingKey = some key →
        L.sjclDecrypt key cyphertextJson = some plain →
      Utils.decryptMessage L cyphertextJson encryptingKey = plain) ∧
    (Utils.decryptMessage L cyphertextJson encryptingKey = cyphertextJson ∨
      ∃ key plain, L.base64ToBits encryptingKey = some key ∧
        L.sjclDecrypt key cyphertextJson = some plain ∧
        Utils.decryptMessage L cyphertextJson encryptingKey = plain) := by
  refine ⟨?_, ?_, ?_⟩
  · rintro (h | ⟨key, hk, hd⟩)
    · simp [Utils.decryptMessage, h]
    · simp [Utils.decryptMessage, hk, hd]
  · intro key plain hk hd
    simp [Utils.decryptMessage, hk, hd]
  · cases hk : L.base64ToBits encryptingKey with
    | none => exact Or.inl (by simp [Utils.decryptMessage, hk])
    | some key =>
      cases hd : L.sjclDecrypt key cyphertextJson with
      | none => exact Or.inl (by simp [Utils.decryptMessage, hk, hd])
      | some plain =>
        exact Or.inr ⟨key, plain, rfl, hd, by simp [Utils.decryptMessage, hk, hd]⟩

theorem decryptMessage_never_throws_witness :
    Utils.decryptMessage testLib "x" "BAD" = "x" ∧
      Utils.decryptMessage testLib "CT" "KEY" = "PT" :=
  ⟨(decryptMessage_never_throws testLib "x" "BAD").1 (Or.inl rfl),
   (decryptMessage_never_throws testLib "CT" "KEY").2.1 [1] "PT" rfl rfl⟩

theorem sorted_keyLt_of_nodup (l : List (String × String))
    (hle : l.Sorted Utils.keyLe) (hnd : (l.map Prod.fst).Nodup) :
    l.Sorted Utils.keyLt := by
  induction l with
  | nil => exact List.sorted_nil
  | cons a t ih =>
    rw [List.sorted_cons] at hle ⊢
    rw [List.map_cons, List.nodup_cons] at hnd
    refine ⟨fun b hb => lt_of_le_of_ne (hle.1 b hb) ?_, ih hle.2 hnd.2⟩
    intro heq
    exact hnd.1 (by rw [heq]; exact List.mem_map_of_mem Prod.fst hb)

theorem insertionSort_eq_of_perm (h h' : List (String × String))
    (hperm : h.Perm h') (hnd : (h.map Prod.fst).Nodup) :
    List.insertionSort Utils.keyLe h = List.insertionSort Utils.keyLe h' := by
  have p1 := List.perm_insertionSort Utils.keyLe h
  have p2 := List.perm_insertionSort Utils.keyLe h'
  have hp : (List.insertionSort Utils.keyLe h).Perm (List.insertionSort Utils.keyLe h') :=
    p1.trans (hperm.trans p2.symm)
  have nd1 : ((List.insertionSort Utils.keyLe h).map Prod.fst).Nodup :=
    ((p1.map Prod.fst).nodup_iff).mpr hnd
  have nd2 : ((List.insertionSort Utils.keyLe h').map Prod.fst).Nodup :=
    ((hp.map Prod.fst).nodup_iff).mp nd1
  exact List.eq_of_perm_of_sorted hp
    (sorted_keyLt_of_nodup _ (List.sorted_insertionSort Utils.keyLe h) nd1)
    (sorted_keyLt_of_nodup _ (List.sorted_insertionSort Utils.keyLe h') nd2)

/-- C8: `getProposalHash` dispatches on the argument shape: a single header
object is serialized canonically, independently of the order of its keys
(two headers that are permutations of each other, with no duplicate keys,
hash identically); the four-positional-argument legacy form pipe-joins
`toAddress|amount|message|payProUrl`, with a missing `message` or
`payProUrl` replaced by the empty string. -/
theorem getProposalHash_two_forms (h h' : List (String × String)) (toAddress : String)
    (amount : Int) (message payProUrl : Option String)
    (hperm : h.Perm h') (hnd : (h.map Prod.fst).Nodup) :
    Utils.getProposalHash (.header h) = Utils.getProposalHash (.header h') ∧
    Utils.getProposalHash (.legacy toAddress amount message payProUrl) =
      toAddress ++ "|" ++ toString amount ++ "|" ++ message.getD "" ++ "|" ++
        payProUrl.getD "" := by
  constructor
  · simp only [Utils.getProposalHash, Utils.stableStringify,
      insertionSort_eq_of_perm h h' hperm hnd]
  · rfl

theorem getProposalHash_two_forms_witness :
    Utils.getProposalHash (.header [("b", "2"), ("a", "1")]) =
      Utils.getProposalHash (.header [("a", "1"), ("b", "2")]) ∧
    Utils.getProposalHash (.legacy "addr" 5 none (some "url")) =
      "addr" ++ "|" ++ toString (5 : Int) ++ "|" ++ "" ++ "|" ++ "url" :=
  getProposalHash_two_forms [("b", "2"), ("a", "1")] [("a", "1"), ("b", "2")]
    "addr" 5 none (some "url") (List.Perm.swap ("a", "1") ("b", "2") []) (by decide)

theorem digitChar_toNat {d : Nat} (h : d < 10) : (Utils.digitChar d).toNat = 48 + d := by
  interval_cases d <;> decide

theorem digitChar_ne_dot {d : Nat} (h : d < 10) : Utils.digitChar d ≠ '.' := by
  interval_cases d <;> decide

theorem digitChar_ne_dash {d : Nat} (h : d < 10) : Utils.digitChar d ≠ '-' := by
  interval_cases d <;> decide

theorem natDigits_mem {fuel n : Nat} {c : Char} (hc : c ∈ Utils.natDigits fuel n) :
    ∃ d, d < 10 ∧ c = Utils.digitChar d := by
  induction fuel generalizing n with
  | zero => simp [Utils.natDigits] at hc
  | succ fuel ih =>
    unfold Utils.natDigits at hc
    by_cases h : n < 10
    · rw [if_pos h] at hc
      simp at hc
      exact ⟨n, h, hc⟩
    · rw [if_neg h] at hc
      rcases List.mem_append.mp hc with h1 | h2
      · exact ih h1
      · simp at h2
        exact ⟨n % 10, Nat.mod_lt _ (by omega), h2⟩

theorem digitsToNat_append_digit (l : List Char) (c : Char) :
    Utils.digitsToNat (l ++ [c]) = Utils.digitsToNat l * 10 + (c.toNat - 48) := by
  unfold Utils.digitsToNat
  rw [List.foldl_append]
  rfl

theorem natDigits_roundtrip : ∀ fuel n, n < 10 ^ fuel →
    Utils.digitsToNat (Utils.natDigits fuel n) = n := by
  intro fuel
  induction fuel with
  | zero =>
    intro n h
    interval_cases n
    rfl
  | succ fuel ih =>
    intro n h
    unfold Utils.natDigits
    by_cases h10 : n < 10
    · rw [if_pos h10]
      show 0 * 10 + ((Utils.digitChar n).toNat - 48) = n
      rw [digitChar_toNat h10]
      omega
    · rw [if_neg h10]
      rw [digitsToNat_append_digit]
      have hdiv : n / 10 < 10 ^ fuel := by
        rw [Nat.div_lt_iff_lt_mul (by norm_num)]
        calc n < 10 ^ (fuel + 1) := h
          _ = 10 ^ fuel * 10 := by rw [pow_succ]
      rw [ih (n / 10) hdiv, digitChar_toNat (Nat.mod_lt _ (by omega))]
      omega

theorem natDigits_length : ∀ fuel n k, n < 10 ^ fuel → n < 10 ^ k → 1 ≤ k →
    (Utils.natDigits fuel n).length ≤ k := by
  intro fuel
  induction fuel with
  | zero =>
    intro n k h _ _
    interval_cases n
    simp [Utils.natDigits]
  | succ fuel ih =>
    intro n k h hk h1
    unfold Utils.natDigits
    by_cases h10 : n < 10
    · rw [if_pos h10]
      simpa using h1
    · rw [if_neg h10]
      rw [List.length_append]
      have hk2 : 2 ≤ k := by
        rcases Nat.lt_or_ge k 2 with hlt | hge
        · exfalso
          have hk1 : k = 1 := by omega
          rw [hk1] at hk
          simp at hk
          omega
        · exact hge
      have hdiv : n / 10 < 10 ^ fuel := by
        rw [Nat.div_lt_iff_lt_mul (by norm_num)]
        calc n < 10 ^ (fuel + 1) := h
          _ = 10 ^ fuel * 10 := by rw [pow_succ]
      have hdivk : n / 10 < 10 ^ (k - 1) := by
        rw [Nat.div_lt_iff_lt_mul (by norm_num)]
        calc n < 10 ^ k := hk
          _ = 10 ^ (k - 1) * 10 := by
            rw [← pow_succ]
            congr 1
            omega
      have := ih (n / 10) (k - 1) hdiv hdivk (by omega)
      simp only [List.length_singleton]
      omega

theorem natDigits_ne_nil (fuel n : Nat) : Utils.natDigits (fuel + 1) n ≠ [] := by
  unfold Utils.natDigits
  by_cases h10 : n < 10
  · rw [if_pos h10]; simp
  · rw [if_neg h10]; simp

theorem natDigits_head_not_dash (fuel n : Nat) :
    ((Utils.natDigits (fuel + 1) n).headD ' ' == '-') = false := by
  cases hd : Utils.natDigits (fuel + 1) n with
  | nil => exact absurd hd (natDigits_ne_nil fuel n)
  | cons c rest =>
    have hc : c ∈ Utils.natDigits (fuel + 1) n := by
      rw [hd]
      exact List.mem_cons_self c rest
    rcases natDigits_mem hc with ⟨d, hd10, rfl⟩
    simp only [List.headD_cons]
    exact beq_eq_false_iff_ne.mpr (digitChar_ne_dash hd10)

theorem natDigits_dot_not_mem (fuel n : Nat) : '.' ∉ Utils.natDigits fuel n := by
  intro hmem
  rcases natDigits_mem hmem with ⟨d, hd10, heq⟩
  exact digitChar_ne_dot hd10 heq.symm

theorem digitsToNat_replicate_zero_append (k : Nat) (l : List Char) :
    Utils.digitsToNat (List.replicate k '0' ++ l) = Utils.digitsToNat l := by
  induction k with
  | zero => simp
  | succ k ih =>
    rw [List.replicate_succ, List.cons_append]
    unfold Utils.digitsToNat at ih ⊢
    rw [List.foldl_cons]
    have h0 : (0 : Nat) * 10 + ('0'.toNat - 48) = 0 := by decide
    rw [h0]
    exact ih

theorem digitsToNat_append_replicate_zero (l : List Char) (j : Nat) :
    Utils.digitsToNat (l ++ List.replicate j '0') = Utils.digitsToNat l * 10 ^ j := by
  induction j generalizing l with
  | zero => simp
  | succ j ih =>
    rw [List.replicate_succ, List.append_cons, ih (l ++ ['0']), digitsToNat_append_digit]
    have h0 : ('0'.toNat - 48) = 0 := by decide
    rw [h0, pow_succ]
    ring

theorem strip_decomp (l : List Char) :
    ∃ j, l = (l.reverse.dropWhile (fun c => c == '0')).reverse ++ List.replicate j '0' := by
  refine ⟨(l.reverse.takeWhile (fun c => c == '0')).length, ?_⟩
  have h1 : l.reverse.takeWhile (fun c => c == '0') ++
      l.reverse.dropWhile (fun c => c == '0') = l.reverse :=
    List.takeWhile_append_dropWhile (fun c => c == '0') l.reverse
  have h2 : l.reverse.takeWhile (fun c => c == '0') =
      List.replicate (l.reverse.takeWhile (fun c => c == '0')).length '0' := by
    apply List.eq_replicate_of_mem
    intro b hb
    have := List.mem_takeWhile_imp hb
    exact eq_of_beq this
  calc l = l.reverse.reverse := (List.reverse_reverse l).symm
    _ = (l.reverse.takeWhile (fun c => c == '0') ++
          l.reverse.dropWhile (fun c => c == '0')).reverse := by rw [h1]
    _ = (l.reverse.dropWhile (fun c => c == '0')).reverse ++
          (l.reverse.takeWhile (fun c => c == '0')).reverse := by rw [List.reverse_append]
    _ = _ := by conv_lhs => rw [h2, List.reverse_replicate]

theorem splitOnChar_not_mem {sep : Char} {l : List Char} (h : sep ∉ l) :
    Utils.splitOnChar sep l = [l] := by
  induction l with
  | nil => rfl
  | cons c rest ih =>
    unfold Utils.splitOnChar
    have hc : (c == sep) = false := by
      apply beq_eq_false_iff_ne.mpr
      intro heq
      exact h (heq ▸ List.mem_cons_self c rest)
    rw [hc]
    simp only [Bool.false_eq_true, if_false]
    rw [ih (fun hm => h (List.mem_cons_of_mem c hm))]

theorem splitOnChar_append {sep : Char} {l : List Char} (r : List Char) (h : sep ∉ l) :
    Utils.splitOnChar sep (l ++ sep :: r) = l :: Utils.splitOnChar sep r := by
  induction l with
  | nil =>
    show Utils.splitOnChar sep (sep :: r) = [] :: Utils.splitOnChar sep r
    conv_lhs => unfold Utils.splitOnChar
    simp
  | cons c rest ih =>
    rw [List.cons_append]
    conv_lhs => unfold Utils.splitOnChar
    have hc : (c == sep) = false := by
      apply beq_eq_false_iff_ne.mpr
      intro heq
      exact h (heq ▸ List.mem_cons_self c rest)
    rw [hc]
    simp only [Bool.false_eq_true, if_false]
    rw [ih (fun hm => h (List.mem_cons_of_mem c hm))]

theorem replaceFirstDot_dot (l : List Char) : Utils.replaceFirstDot '.' l = l := by
  induction l with
  | nil => rfl
  | cons c rest ih =>
    unfold Utils.replaceFirstDot
    by_cases hc : c = '.'
    · subst hc
      simp
    · rw [if_neg (by simpa using hc), ih]

theorem string_nil_append (s : String) : "" ++ s = s := by
  cases s with
  | mk data => show String.mk ([] ++ data) = String.mk data; rfl

theorem string_append_empty (s : String) : s ++ "" = s := by
  cases s with
  | mk data =>
    show String.mk (data ++ []) = String.mk data
    rw [List.append_nil]

theorem string_append_assoc (a b c : String) : a ++ b ++ c = a ++ (b ++ c) := by
  cases a with
  | mk da =>
    cases b with
    | mk db =>
      cases c with
      | mk dc =>
        show String.mk (da ++ db ++ dc) = String.mk (da ++ (db ++ dc))
        rw [List.append_assoc]

theorem lt_ten_pow_succ (n : Nat) : n < 10 ^ (n + 1) :=
  lt_of_lt_of_le (Nat.lt_pow_self (by norm_num) n)
    (Nat.pow_le_pow_right (by norm_num) (by omega))

set_option maxRecDepth 8000 in
theorem clippedToFixed_nodot_eval (I : List Char)
    (hI : '.' ∉ I) (hIhead : (I.headD ' ' == '-') = false) :
    Utils.clippedToFixed (String.mk I) 8 =
      Utils.natToString (Utils.digitsToNat I) ++ "." ++
        Utils.padLeftZeros (Utils.natToString 0) 8 := by
  simp only [Utils.clippedToFixed]
  rw [show (String.mk I).toList = I from rfl]
  rw [splitOnChar_not_mem hI]
  simp only [List.getD_cons_zero, List.getD_cons_succ, List.getD_nil, List.isEmpty_nil,
    if_true]
  rw [hIhead]
  simp only [Bool.false_eq_true, if_false, Bool.false_and]
  rw [if_neg (by norm_num : ¬ (8 = 0))]
  rw [show Utils.digitsToNat (List.take 8 ['0']) = 0 from by decide]
  rw [show (List.take 8 ['0']).length = 1 from by decide]
  simp only [Nat.zero_mul, Nat.add_zero]
  rw [string_nil_append]
  rw [Nat.mul_div_cancel _ (by norm_num : (0:Nat) < 10 ^ 8)]
  rw [Nat.mul_mod_left]

theorem clippedToFixed_dot_eval (I F : List Char)
    (hI : '.' ∉ I) (hIhead : (I.headD ' ' == '-') = false)
    (hF : '.' ∉ F) (hFne : F ≠ []) (hFlen : F.length ≤ 8) :
    Utils.clippedToFixed (String.mk (I ++ '.' :: F)) 8 =
      Utils.natToString ((Utils.digitsToNat I * 10 ^ 8 +
          Utils.digitsToNat F * 10 ^ (8 - F.length)) / 10 ^ 8) ++ "." ++
        Utils.padLeftZeros (Utils.natToString ((Utils.digitsToNat I * 10 ^ 8 +
          Utils.digitsToNat F * 10 ^ (8 - F.length)) % 10 ^ 8)) 8 := by
  have hFempty : F.isEmpty = false := by
    cases F with
    | nil => exact absurd rfl hFne
    | cons a l => rfl
  simp only [Utils.clippedToFixed]
  rw [show (String.mk (I ++ '.' :: F)).toList = I ++ '.' :: F from rfl]
  rw [splitOnChar_append F hI, splitOnChar_not_mem hF]
  simp only [List.getD_cons_zero, List.getD_cons_succ, List.getD_nil]
  rw [hFempty]
  simp only [Bool.false_eq_true, if_false]
  rw [List.take_of_length_le hFlen]
  rw [hIhead]
  simp only [Bool.false_eq_true, if_false, Bool.false_and]
  rw [if_neg (by norm_num)]
  rw [string_nil_append]

theorem addSeparators_dot_eval (I F : List Char) (hI : '.' ∉ I) (hF : '.' ∉ F) :
    Utils.addSeparators (String.mk (I ++ '.' :: F)) ',' '.' 2 =
      Utils.insertThousands I ',' ++ "." ++ String.mk (Utils.dropRightZerosIdx 2 F) := by
  simp only [Utils.addSeparators]
  rw [show (String.mk (I ++ '.' :: F)).toList = I ++ '.' :: F from rfl]
  rw [replaceFirstDot_dot, splitOnChar_append F hI, splitOnChar_not_mem hF]
  simp only [List.getD_cons_zero, List.getD_cons_succ, List.getD_nil, List.length_cons,
    List.length_singleton]
  rw [if_pos (by norm_num)]
  rw [← string_append_assoc]

theorem clippedToFixed_strip (I P : List Char)
    (hI : '.' ∉ I) (hIhead : (I.headD ' ' == '-') = false)
    (hP : '.' ∉ P) (hPlen : P.length = 8) (hPval : Utils.digitsToNat P < 10 ^ 8) :
    Utils.clippedToFixed (String.mk I ++
      (if (String.mk ((P.reverse.dropWhile (fun c => c == '0')).reverse)).isEmpty then ""
        else "." ++ String.mk ((P.reverse.dropWhile (fun c => c == '0')).reverse))) 8 =
    Utils.natToString (Utils.digitsToNat I) ++ "." ++
      Utils.padLeftZeros (Utils.natToString (Utils.digitsToNat P)) 8 := by
  obtain ⟨j, hj⟩ := strip_decomp P
  by_cases hS : (P.reverse.dropWhile (fun c => c == '0')).reverse = []
  · have hP0 : Utils.digitsToNat P = 0 := by
      have hrepl : P = List.replicate j '0' := by
        rw [hj, hS, List.nil_append]
      rw [hrepl]
      have := digitsToNat_replicate_zero_append j []
      rw [List.append_nil] at this
      rw [this]
      rfl
    rw [hS]
    rw [if_pos (by decide : (String.mk ([] : List Char)).isEmpty = true)]
    rw [string_append_empty, clippedToFixed_nodot_eval I hI hIhead, hP0]
  · have hSisEmpty :
        (String.mk ((P.reverse.dropWhile (fun c => c == '0')).reverse)).isEmpty = false :=
      isEmpty_false_of_ne_empty (fun h => hS (congrArg String.data h))
    rw [hSisEmpty]
    simp only [Bool.false_eq_true, if_false]
    have harg : String.mk I ++
        ("." ++ String.mk ((P.reverse.dropWhile (fun c => c == '0')).reverse)) =
        String.mk (I ++ '.' :: (P.reverse.dropWhile (fun c => c == '0')).reverse) := rfl
    rw [harg]
    have hdotS : '.' ∉ (P.reverse.dropWhile (fun c => c == '0')).reverse := by
      intro hm
      exact hP (by rw [hj]; exact List.mem_append_left _ hm)
    have hlenS : ((P.reverse.dropWhile (fun c => c == '0')).reverse).length + j = 8 := by
      have := congrArg List.length hj
      rw [List.length_append, List.length_replicate, hPlen] at this
      omega
    rw [clippedToFixed_dot_eval I ((P.reverse.dropWhile (fun c => c == '0')).reverse)
      hI hIhead hdotS hS (by omega)]
    have hval : Utils.digitsToNat ((P.reverse.dropWhile (fun c => c == '0')).reverse) *
        10 ^ (8 - ((P.reverse.dropWhile (fun c => c == '0')).reverse).length) =
        Utils.digitsToNat P := by
      conv_rhs => rw [hj, digitsToNat_append_replicate_zero]
      have hj8 : 8 - ((P.reverse.dropWhile (fun c => c == '0')).reverse).length = j := by
        omega
      rw [hj8]
    rw [hval]
    have hdiv : (Utils.digitsToNat I * 10 ^ 8 + Utils.digitsToNat P) / 10 ^ 8 =
        Utils.digitsToNat I := by
      rw [Nat.mul_comm (Utils.digitsToNat I) (10 ^ 8),
        Nat.mul_add_div (by norm_num : (0:Nat) < 10 ^ 8),
        Nat.div_eq_of_lt hPval, Nat.add_zero]
    have hmod : (Utils.digitsToNat I * 10 ^ 8 + Utils.digitsToNat P) % 10 ^ 8 =
        Utils.digitsToNat P := by
      rw [Nat.mul_comm (Utils.digitsToNat I) (10 ^ 8), Nat.mul_add_mod,
        Nat.mod_eq_of_lt hPval]
    rw [hdiv, hmod]

theorem padList_dot_not_mem (fp : Nat) :
    '.' ∉ List.replicate (8 - (Utils.natDigits (fp + 1) fp).length) '0' ++
      Utils.natDigits (fp + 1) fp := by
  intro hm
  rcases List.mem_append.mp hm with h1 | h2
  · exact absurd (List.eq_of_mem_replicate h1) (by decide)
  · exact natDigits_dot_not_mem _ _ h2

theorem padList_length (fp : Nat) (hfp : fp < 10 ^ 8) :
    (List.replicate (8 - (Utils.natDigits (fp + 1) fp).length) '0' ++
      Utils.natDigits (fp + 1) fp).length = 8 := by
  have hlen : (Utils.natDigits (fp + 1) fp).length ≤ 8 :=
    natDigits_length (fp + 1) fp 8 (lt_ten_pow_succ fp) hfp (by norm_num)
  rw [List.length_append, List.length_replicate]
  omega

theorem padList_val (fp : Nat) :
    Utils.digitsToNat (List.replicate (8 - (Utils.natDigits (fp + 1) fp).length) '0' ++
      Utils.natDigits (fp + 1) fp) = fp := by
  rw [digitsToNat_replicate_zero_append]
  exact natDigits_roundtrip (fp + 1) fp (lt_ten_pow_succ fp)

theorem clippedToFixed_exact (ip fp : Nat) (hfp : fp < 10 ^ 8) :
    Utils.clippedToFixed
      (Utils.natToString ip ++
        (if (Utils.stripTrailingZeros (Utils.padLeftZeros (Utils.natToString fp) 8)).isEmpty
          then ""
          else "." ++ Utils.stripTrailingZeros (Utils.padLeftZeros (Utils.natToString fp) 8))) 8
      =
    Utils.natToString ip ++ "." ++ Utils.padLeftZeros (Utils.natToString fp) 8 := by
  have h := clippedToFixed_strip (Utils.natDigits (ip + 1) ip)
    (List.replicate (8 - (Utils.natDigits (fp + 1) fp).length) '0' ++
      Utils.natDigits (fp + 1) fp)
    (natDigits_dot_not_mem (ip + 1) ip) (natDigits_head_not_dash ip ip)
    (padList_dot_not_mem fp) (padList_length fp hfp)
    (by rw [padList_val fp]; exact hfp)
  rw [natDigits_roundtrip (ip + 1) ip (lt_ten_pow_succ ip), padList_val fp] at h
  exact h

theorem addSeparators_exact (ip fp : Nat) :
    Utils.addSeparators
      (Utils.natToString ip ++ "." ++ Utils.padLeftZeros (Utils.natToString fp) 8) ',' '.' 2 =
    Utils.insertThousands (Utils.natToString ip).toList ',' ++ "." ++
      String.mk (Utils.dropRightZerosIdx 2
        (Utils.padLeftZeros (Utils.natToString fp) 8).toList) := by
  have harg : Utils.natToString ip ++ "." ++ Utils.padLeftZeros (Utils.natToString fp) 8 =
      String.mk (Utils.natDigits (ip + 1) ip ++ '.' ::
        (List.replicate (8 - (Utils.natDigits (fp + 1) fp).length) '0' ++
          Utils.natDigits (fp + 1) fp)) := by
    show String.mk ((Utils.natDigits (ip + 1) ip ++ ['.']) ++
        (List.replicate (8 - (Utils.natDigits (fp + 1) fp).length) '0' ++
          Utils.natDigits (fp + 1) fp)) = _
    rw [List.append_assoc]
    rfl
  rw [harg, addSeparators_dot_eval (Utils.natDigits (ip + 1) ip) _
    (natDigits_dot_not_mem (ip + 1) ip) (padList_dot_not_mem fp)]
  rfl

theorem jsNumberToString_ofNat (n k : Nat) :
    Utils.jsNumberToString (Int.ofNat n) k =
      Utils.natToString (n / 10 ^ k) ++
        (if (Utils.stripTrailingZeros
              (Utils.padLeftZeros (Utils.natToString (n % 10 ^ k)) k)).isEmpty
          then ""
          else "." ++ Utils.stripTrailingZeros
            (Utils.padLeftZeros (Utils.natToString (n % 10 ^ k)) k)) := by
  unfold Utils.jsNumberToString
  have hnn : ¬ Int.ofNat n < 0 := by
    intro h
    rw [show (0 : Int) = Int.ofNat 0 from rfl] at h
    exact absurd (Int.ofNat_lt.mp h) (Nat.not_lt_zero n)
  rw [show (Int.ofNat n).natAbs = n from rfl, if_neg hnn]
  exact string_nil_append _

/-- C9: with the spec's `BTC` unit profile (unit size `1e8`,
`minDecimals = 2`, `maxDecimals = 8`) and default options, `formatAmount`
renders every amount `n` as the exact decimal expansion of `n / 1e8`:
the integer part `n / 10^8` with a thousands separator inserted, a decimal
point, and the 8-digit expansion of `n mod 10^8` (the unit's maximum
decimal places, obtained by truncation, not rounding) with trailing zero
decimals stripped down to the two-decimal floor.  In particular
`123456789` renders as `"1.23456789"`, one whole unit (`100000000`) as
`"1.00"`, and `123456789000` as `"1,234.56789"`. -/
theorem formatAmount_btc_spec :
    (∀ n : Nat, Utils.formatAmount (Int.ofNat n) "BTC" {} =
      .ok (Utils.insertThousands (Utils.natToString (n / 10 ^ 8)).toList ',' ++ "." ++
        String.mk (Utils.dropRightZerosIdx 2
          (Utils.padLeftZeros (Utils.natToString (n % 10 ^ 8)) 8).toList))) ∧
    Utils.formatAmount 123456789 "BTC" {} = .ok "1.23456789" ∧
    Utils.formatAmount 100000000 "BTC" {} = .ok "1.00" ∧
    Utils.formatAmount 123456789000 "BTC" {} = .ok "1,234.56789" := by
  refine ⟨?_, by decide, by decide, by decide⟩
  intro n
  have hfp : n % 10 ^ 8 < 10 ^ 8 := Nat.mod_lt _ (by norm_num)
  show Except.ok (Utils.addSeparators
      (Utils.clippedToFixed (Utils.jsNumberToString (Int.ofNat n) 8) 8) ',' '.' 2) = _
  rw [jsNumberToString_ofNat n 8, clippedToFixed_exact (n / 10 ^ 8) (n % 10 ^ 8) hfp,
    addSeparators_exact (n / 10 ^ 8) (n % 10 ^ 8)]

/-- C1: `buildTx` returns an assembled transaction only when the
independently re-derived difference between the plan's total input value
and the transaction's total output value (change output included) lies in
`[0, maxTxFee]`; whenever the assembled outputs would make that difference
negative or larger than the bound, it fails with a state error and returns
no transaction. -/
theorem buildTx_balance_invariant (maxTxFee : Int) (change : Utils.ChangeFn)
    (txp : Utils.TxPlan) :
    (∀ t, Utils.buildTx maxTxFee change txp = .ok t →
      0 ≤ Utils.totalInputSatoshis txp - Utils.totalOutputSatoshis t.outputs ∧
      Utils.totalInputSatoshis txp - Utils.totalOutputSatoshis t.outputs ≤ maxTxFee) ∧
    (∀ outs, Utils.assembledOutputs change txp = .ok outs →
      (Utils.totalInputSatoshis txp - Utils.totalOutputSatoshis outs < 0 ∨
        maxTxFee < Utils.totalInputSatoshis txp - Utils.totalOutputSatoshis outs) →
      Utils.buildTx maxTxFee change txp = .error .state) := by
  constructor
  · intro t ht
    unfold Utils.buildTx at ht
    cases hA : Utils.assembledOutputs change txp with
    | error e => rw [hA] at ht; cases ht
    | ok outs =>
      rw [hA] at ht
      have ht' : Utils.balanceCheck maxTxFee txp outs = .ok t := ht
      unfold Utils.balanceCheck at ht'
      by_cases hc1 : Utils.totalInputSatoshis txp - Utils.totalOutputSatoshis outs < 0
      · rw [if_pos hc1] at ht'; cases ht'
      · rw [if_neg hc1] at ht'
        by_cases hc2 : maxTxFee < Utils.totalInputSatoshis txp - Utils.totalOutputSatoshis outs
        · rw [if_pos hc2] at ht'; cases ht'
        · rw [if_neg hc2] at ht'
          injection ht' with h4
          have h5 : t.outputs = outs := congrArg Utils.Transaction.outputs h4.symm
          rw [h5]
          exact ⟨by omega, by omega⟩
  · intro outs hA hbad
    unfold Utils.buildTx
    rw [hA]
    show Utils.balanceCheck maxTxFee txp outs = .error .state
    unfold Utils.balanceCheck
    rcases hbad with hb | hb
    · rw [if_pos hb]
    · by_cases hneg : Utils.totalInputSatoshis txp - Utils.totalOutputSatoshis outs < 0
      · rw [if_pos hneg]
      · rw [if_neg hneg, if_pos hb]

theorem buildTx_balance_invariant_witness :
    (0 ≤ Utils.totalInputSatoshis txpA -
        Utils.totalOutputSatoshis [Utils.TxOutput.addrOut "addr1" 90] ∧
      Utils.totalInputSatoshis txpA -
        Utils.totalOutputSatoshis [Utils.TxOutput.addrOut "addr1" 90] ≤ 20) ∧
    Utils.buildTx 5 changeNone txpA = .error .state :=
  ⟨(buildTx_balance_invariant 20 changeNone txpA).1
      ⟨[⟨100, []⟩], 10, "chg", [.addrOut "addr1" 90]⟩ rfl,
   (buildTx_balance_invariant 5 changeNone txpA).2 [.addrOut "addr1" 90] rfl
      (Or.inr (by decide))⟩

/-- C2: with more than one assembled output, `buildTx` drops the
out-of-range `outputOrder` indices, fails with a state error unless the
filtered order is as long as the output list, and otherwise the assembled
transaction's outputs are exactly the pre-shuffle outputs permuted by the
filtered order. -/
theorem buildTx_output_order_spec (change : Utils.ChangeFn) (txp : Utils.TxPlan)
    (outs1 : List Utils.TxOutput)
    (h1 : Utils.preShuffleOutputs change txp = .ok outs1) (h2 : 1 < outs1.length) :
    (¬ outs1.length = (txp.outputOrder.filter (fun o => decide (o < outs1.length))).length →
      ∀ maxTxFee, Utils.buildTx maxTxFee change txp = .error .state) ∧
    (outs1.length = (txp.outputOrder.filter (fun o => decide (o < outs1.length))).length →
      Utils.assembledOutputs change txp =
        .ok ((txp.outputOrder.filter (fun o => decide (o < outs1.length))).map
          (fun i => outs1.getD i (Utils.TxOutput.scriptOut "" 0))) ∧
      ∀ maxTxFee t, Utils.buildTx maxTxFee change txp = .ok t →
        t.outputs = (txp.outputOrder.filter (fun o => decide (o < outs1.length))).map
          (fun i => outs1.getD i (Utils.TxOutput.scriptOut "" 0))) := by
  constructor
  · intro hne maxTxFee
    have hA : Utils.assembledOutputs change txp = .error .state := by
      simp only [Utils.assembledOutputs, h1]
      unfold Utils.shuffleOutputs
      rw [if_pos h2, if_neg hne]
    simp [Utils.buildTx, hA]
  · intro heq
    have hA : Utils.assembledOutputs change txp =
        .ok ((txp.outputOrder.filter (fun o => decide (o < outs1.length))).map
          (fun i => outs1.getD i (Utils.TxOutput.scriptOut "" 0))) := by
      simp only [Utils.assembledOutputs, h1]
      unfold Utils.shuffleOutputs
      rw [if_pos h2, if_pos heq]
    refine ⟨hA, ?_⟩
    intro maxTxFee t ht
    unfold Utils.buildTx at ht
    rw [hA] at ht
    generalize hout : (txp.outputOrder.filter (fun o => decide (o < outs1.length))).map
        (fun i => outs1.getD i (Utils.TxOutput.scriptOut "" 0)) = pouts at ht ⊢
    have ht' : Utils.balanceCheck maxTxFee txp pouts = .ok t := ht
    unfold Utils.balanceCheck at ht'
    by_cases hc1 : Utils.totalInputSatoshis txp - Utils.totalOutputSatoshis pouts < 0
    · rw [if_pos hc1] at ht'; cases ht'
    · rw [if_neg hc1] at ht'
      by_cases hc2 : maxTxFee < Utils.totalInputSatoshis txp - Utils.totalOutputSatoshis pouts
      · rw [if_pos hc2] at ht'; cases ht'
      · rw [if_neg hc2] at ht'
        injection ht' with h4
        exact congrArg Utils.Transaction.outputs h4.symm

theorem buildTx_output_order_spec_witness :
    Utils.assembledOutputs changeNone txpC =
      .ok [Utils.TxOutput.addrOut "c" 30, Utils.TxOutput.addrOut "a" 10,
        Utils.TxOutput.addrOut "b" 20] ∧
    Utils.buildTx 50 changeNone txpD = .error .state :=
  ⟨((buildTx_output_order_spec changeNone txpC
        [.addrOut "a" 10, .addrOut "b" 20, .addrOut "c" 30] rfl (by decide)).2
      (by decide)).1,
   (buildTx_output_order_spec changeNone txpD
        [.addrOut "a" 10, .addrOut "b" 20, .addrOut "c" 30] rfl (by decide)).1
      (by decide) 50⟩

/-- C10: when the assembled transaction has at most one output (change
included), `buildTx` skips the shuffling section entirely: the outputs pass
through unchanged and the result does not depend on `outputOrder` at all,
so no `outputOrder` value can cause a failure there. -/
theorem buildTx_single_output_skips_order (maxTxFee : Int) (change : Utils.ChangeFn)
    (txp : Utils.TxPlan) (outs1 : List Utils.TxOutput)
    (h1 : Utils.preShuffleOutputs change txp = .ok outs1) (h2 : outs1.length ≤ 1) :
    Utils.assembledOutputs change txp = .ok outs1 ∧
    ∀ ord, Utils.buildTx maxTxFee change { txp with outputOrder := ord } =
      Utils.buildTx maxTxFee change txp := by
  have hsh : ∀ (ord : List Nat), Utils.shuffleOutputs ord outs1 = .ok outs1 := by
    intro ord
    unfold Utils.shuffleOutputs
    rw [if_neg (by omega)]
  have hpre : ∀ (ord : List Nat),
      Utils.preShuffleOutputs change { txp with outputOrder := ord } =
        Utils.preShuffleOutputs change txp := fun _ => rfl
  have hA2 : Utils.assembledOutputs change txp = .ok outs1 := by
    simp only [Utils.assembledOutputs, h1]
    exact hsh _
  refine ⟨hA2, ?_⟩
  intro ord
  have hA1 : Utils.assembledOutputs change { txp with outputOrder := ord } = .ok outs1 := by
    simp only [Utils.assembledOutputs, hpre, h1]
    exact hsh _
  simp only [Utils.buildTx, hA1, hA2]
  rfl

theorem buildTx_single_output_skips_order_witness :
    Utils.assembledOutputs changeNone txpA = .ok [Utils.TxOutput.addrOut "addr1" 90] ∧
    Utils.buildTx 20 changeNone { txpA with outputOrder := [9, 9] } =
      Utils.buildTx 20 changeNone txpA :=
  ⟨(buildTx_single_output_skips_order 20 changeNone txpA [.addrOut "addr1" 90] rfl
      (by decide)).1,
   (buildTx_single_output_skips_order 20 changeNone txpA [.addrOut "addr1" 90] rfl
      (by decide)).2 [9, 9]⟩
